import Mathlib

/-!
Shallow embedding of src/mloptimizer/genoptimizer/base.py.

The embedding covers the genetic-optimization engine of the repository:
the variation operators, selective re-evaluation, tournament selection,
hall-of-fame maintenance, logbook statistics, checkpointing, and the
generational loop of custom_ea_simple, together with the resume / fresh
branches and path bookkeeping of optimize_clf.

Modelling conventions:
- The python global random stream (module random, seeded by set_mlopt_seed)
  is modelled by a deterministic oracle RandGen plus a stream position
  (a natural number).  Every call random.random() or random.randint(a, b)
  reads the oracle at the current position and advances the position by one;
  random.getstate() / random.setstate(...) save and restore the position.
- DEAP library operators invoked by the source (deap.algorithms.varAnd,
  deap.tools.cxTwoPoint, deap.tools.mutUniformInt, deap.tools.selTournament,
  deap.tools.HallOfFame) are embedded from their standard implementations,
  at the call sites and with the arguments the source registers for them.
- Fitness values are rationals; a fitness is valid iff it is Option.some.
- The evaluation collaborator (evaluate_clf -> eval_function) is an abstract
  deterministic function from a genome to a fitness value.
- Filesystem effects are recorded as an explicit list of FileWrite events;
  python exceptions are modelled with Except over PyError.
-/

namespace MLOpt

/-- A DEAP individual as created in optimize_clf: a list genome (one integer
per evolved hyperparameter) carrying a fitness that is either unset
(invalid, Option.none) or a single numeric value. -/
structure Individual where
  genome : List Int
  fitness : Option Rat
deriving DecidableEq, Repr

/-- Deterministic oracle for the python global random stream: floatAt s is
the value random.random() returns when drawn at stream position s, and
intAt s a b the value random.randint(a, b) returns when drawn at position s.
Each draw advances the position by one. -/
structure RandGen where
  floatAt : Nat → Rat
  intAt : Nat → Int → Int → Int

/-- Comparison of DEAP fitness objects (single maximizing objective):
an invalid fitness has the empty values tuple, which compares strictly
below every valid one; two valid fitnesses compare by value. -/
def fitLt : Option Rat → Option Rat → Bool
  | none, none => false
  | none, some _ => true
  | some _, none => false
  | some a, some b => decide (a < b)

/-- a is at most b in the fitness order (not b strictly below a). -/
def fitLe (a b : Option Rat) : Prop := fitLt b a = false

/-- Configuration fixed over one call of optimize_clf: the random oracle,
the abstract evaluation function (evaluate_clf), the per-dimension integer
bounds of the evolved hyperparameters (min_value, max_value), and the
operator parameters registered on the toolbox (cxpb = 0.5, mutpb = 0.5,
indpb = 0.5, tournsize = 4 in the source). -/
structure EAConfig where
  rng : RandGen
  evalFit : List Int → Rat
  bounds : List (Int × Int)
  cxpb : Rat
  mutpb : Rat
  indpb : Rat
  tournsize : Nat

/-- The python slice swap of deap.tools.cxTwoPoint: the segment of positions
p1 ≤ i < p2 of l1 is replaced by the same segment of l2. -/
def sliceSwap (p1 p2 : Nat) (l1 l2 : List Int) : List Int :=
  (l1.take p1) ++ ((l2.drop p1).take (p2 - p1)) ++ l1.drop p2

/-- deap.tools.cxTwoPoint, registered as toolbox.mate at base.py line 487:
draw cxpoint1 = randint(1, size) and cxpoint2 = randint(1, size - 1),
reorder them (bumping the larger), then exchange the middle slice of the two
genomes.  Returns the two children and the advanced stream position. -/
def cxTwoPoint (g : RandGen) (s : Nat) (l1 l2 : List Int) :
    (List Int × List Int) × Nat :=
  let size : Int := Int.ofNat (min l1.length l2.length)
  let c1 := g.intAt s 1 size
  let c2 := g.intAt (s + 1) 1 (size - 1)
  let p1 := (if c1 ≤ c2 then c1 else c2).toNat
  let p2 := (if c1 ≤ c2 then c2 + 1 else c1).toNat
  ((sliceSwap p1 p2 l1 l2, sliceSwap p1 p2 l2 l1), s + 2)

/-- deap.tools.mutUniformInt, registered as toolbox.mutate at base.py lines
488-489 with low/up the per-dimension bounds of self.hyperparams: for each
gene (zipped with its bounds, truncating at the shorter list), with
probability indpb the gene is re-drawn by randint within its own bounds. -/
def mutUniformInt (g : RandGen) (indpb : Rat) :
    List Int → List (Int × Int) → Nat → List Int × Nat
  | [], _, s => ([], s)
  | x :: xs, [], s => (x :: xs, s)
  | x :: xs, (lo, hi) :: bs, s =>
    if g.floatAt s < indpb then
      let v := g.intAt (s + 1) lo hi
      let r := mutUniformInt g indpb xs bs (s + 2)
      (v :: r.1, r.2)
    else
      let r := mutUniformInt g indpb xs bs (s + 1)
      (x :: r.1, r.2)

/-- First loop of deap.algorithms.varAnd (called at base.py line 615):
for i in range(1, len(offspring), 2), i.e. over consecutive pairs, with
probability cxpb the pair is mated by cxTwoPoint and both children's
fitnesses are deleted (invalidated).  A trailing unpaired individual is
left untouched. -/
def crossPairs (g : RandGen) (cxpb : Rat) :
    List Individual → Nat → List Individual × Nat
  | a :: b :: rest, s =>
    if g.floatAt s < cxpb then
      let m := cxTwoPoint g (s + 1) a.genome b.genome
      let r := crossPairs g cxpb rest m.2
      (⟨m.1.1, none⟩ :: ⟨m.1.2, none⟩ :: r.1, r.2)
    else
      let r := crossPairs g cxpb rest (s + 1)
      (a :: b :: r.1, r.2)
  | l, s => (l, s)

/-- Second loop of deap.algorithms.varAnd: for each individual, with
probability mutpb it is mutated by mutUniformInt (per-gene probability
indpb) and its fitness is deleted (invalidated). -/
def mutateAll (g : RandGen) (mutpb indpb : Rat) (bounds : List (Int × Int)) :
    List Individual → Nat → List Individual × Nat
  | [], s => ([], s)
  | a :: rest, s =>
    if g.floatAt s < mutpb then
      let m := mutUniformInt g indpb a.genome bounds (s + 1)
      let r := mutateAll g mutpb indpb bounds rest m.2
      (⟨m.1, none⟩ :: r.1, r.2)
    else
      let r := mutateAll g mutpb indpb bounds rest (s + 1)
      (a :: r.1, r.2)

/-- deap.algorithms.varAnd as invoked at base.py line 615: clone the
population, apply the crossover pass over consecutive pairs, then the
mutation pass over every individual. -/
def varAnd (cfg : EAConfig) (pop : List Individual) (s : Nat) :
    List Individual × Nat :=
  let c := crossPairs cfg.rng cfg.cxpb pop s
  mutateAll cfg.rng cfg.mutpb cfg.indpb cfg.bounds c.1 c.2

/-- Mutation pass as the claim words it: each gene of each individual is
independently re-drawn within its own bounds with probability mutpb (there
is no per-individual gate); an individual whose genome changed has its
fitness invalidated. -/
def specMutClaimAll (g : RandGen) (mutpb : Rat) (bounds : List (Int × Int)) :
    List Individual → Nat → List Individual × Nat
  | [], s => ([], s)
  | a :: rest, s =>
    let m := mutUniformInt g mutpb a.genome bounds s
    let r := specMutClaimAll g mutpb bounds rest m.2
    (⟨m.1, if m.1 == a.genome then a.fitness else none⟩ :: r.1, r.2)

/-- The variation step as claim C2 words it: two-point crossover over
consecutive pairs with probability cxpb per pair, then per-gene mutation
with probability mutpb per gene. -/
def specVarAndClaim (cfg : EAConfig) (pop : List Individual) (s : Nat) :
    List Individual × Nat :=
  let c := crossPairs cfg.rng cfg.cxpb pop s
  specMutClaimAll cfg.rng cfg.mutpb cfg.bounds c.1 c.2

/-- Consecutive pairing of a list: the list of consecutive pairs together
with the leftover (at most one trailing element). -/
def pairChunks : List Individual → List (Individual × Individual) × List Individual
  | a :: b :: rest =>
    let r := pairChunks rest
    ((a, b) :: r.1, r.2)
  | l => ([], l)

/-- One crossover decision of the amended specification: with probability
cxpb the consecutive pair is mated by two-point crossover and both results
are invalidated, otherwise the pair passes through unchanged. -/
def specCrossStep (g : RandGen) (cxpb : Rat)
    (ac : List Individual × Nat) (pr : Individual × Individual) :
    List Individual × Nat :=
  if g.floatAt ac.2 < cxpb then
    let m := cxTwoPoint g (ac.2 + 1) pr.1.genome pr.2.genome
    (ac.1 ++ [⟨m.1.1, none⟩, ⟨m.1.2, none⟩], m.2)
  else
    (ac.1 ++ [pr.1, pr.2], ac.2 + 1)

/-- One mutation decision of the amended specification: with probability
mutpb the individual is mutated gene-wise (each gene re-drawn within its own
bounds with probability indpb) and invalidated, otherwise it passes through
unchanged. -/
def specMutStep (g : RandGen) (mutpb indpb : Rat) (bounds : List (Int × Int))
    (ac : List Individual × Nat) (ind : Individual) : List Individual × Nat :=
  if g.floatAt ac.2 < mutpb then
    let m := mutUniformInt g indpb ind.genome bounds (ac.2 + 1)
    (ac.1 ++ [⟨m.1, none⟩], m.2)
  else
    (ac.1 ++ [ind], ac.2 + 1)

/-- The variation step as the amended claim words it: fold the crossover
decision over the consecutive pairs (the trailing unpaired individual is
left in place), then fold the per-individual mutation decision over the
resulting population. -/
def specVarAndAmended (cfg : EAConfig) (pop : List Individual) (s : Nat) :
    List Individual × Nat :=
  let pc := pairChunks pop
  let c := pc.1.foldl (specCrossStep cfg.rng cfg.cxpb) ([], s)
  (c.1 ++ pc.2).foldl (specMutStep cfg.rng cfg.mutpb cfg.indpb cfg.bounds) ([], c.2)

/-- The index draw of random.choice inside deap.tools.selRandom: tournsize
aspirants are drawn uniformly with replacement from the population (one
stream draw per aspirant). -/
def selAspirants (g : RandGen) (pop : List Individual) :
    Nat → Nat → List Individual × Nat
  | 0, s => ([], s)
  | n + 1, s =>
    let idx := (g.intAt s 0 (Int.ofNat pop.length - 1)).toNat
    let a := pop.getD idx ⟨[], none⟩
    let r := selAspirants g pop n (s + 1)
    (a :: r.1, r.2)

/-- python max(aspirants, key=attrgetter(fitness)): the first aspirant of
maximal fitness wins (the current best is replaced only on a strictly
greater fitness). -/
def maxByFitness : Individual → List Individual → Individual
  | best, [] => best
  | best, a :: rest =>
    maxByFitness (if fitLt best.fitness a.fitness then a else best) rest

/-- deap.tools.selTournament, registered as toolbox.select with
tournsize = 4 at base.py line 490: k tournaments, each drawing tournsize
aspirants with replacement and keeping the first one of maximal fitness. -/
def selTournament (g : RandGen) (tournsize : Nat) (pop : List Individual) :
    Nat → Nat → List Individual × Nat
  | 0, s => ([], s)
  | k + 1, s =>
    let asp := selAspirants g pop tournsize s
    let w := match asp.1 with
      | [] => ⟨[], none⟩
      | x :: xs => maxByFitness x xs
    let r := selTournament g tournsize pop k asp.2
    (w :: r.1, r.2)

/-- deap.tools.HallOfFame as created with capacity 10 at base.py line 445:
items are kept sorted by fitness descending. -/
structure HallOfFame where
  maxsize : Nat
  items : List Individual
deriving DecidableEq, Repr

/-- HallOfFame.insert: place the new item after every item of strictly
greater fitness (and before items of equal fitness), keeping the list
sorted by fitness descending. -/
def hofInsert (a : Individual) : List Individual → List Individual
  | [] => [a]
  | x :: xs => if fitLt a.fitness x.fitness then x :: hofInsert a xs
               else a :: x :: xs

/-- Fitness of the last (worst) hall-of-fame item, the self[-1].fitness
read in HallOfFame.update (none on an empty list, a case update only
reaches when maxsize = 0, where the python raises IndexError instead). -/
def hofLastFit (items : List Individual) : Option Rat :=
  match items.getLast? with
  | some x => x.fitness
  | none => none

/-- One iteration of the loop of deap.tools.HallOfFame.update: on the first
insertion into an empty hall the item population[0] (the first argument) is
inserted; otherwise the individual is inserted when it beats the current
worst member or the hall is not full, unless an equal genome is already
present (similar = operator.eq); when the hall is full the worst member is
removed first. -/
def hofUpdateOne (maxsize : Nat) (first : Individual)
    (items : List Individual) (ind : Individual) : List Individual :=
  if items.length = 0 ∧ maxsize ≠ 0 then
    hofInsert first items
  else if fitLt (hofLastFit items) ind.fitness = true ∨ items.length < maxsize then
    if items.any (fun h => h.genome == ind.genome) then items
    else hofInsert ind (if maxsize ≤ items.length then items.dropLast else items)
  else items

/-- The fold of HallOfFame.update over the population.  The first argument
of each iteration is population[0]; for an individual taken from the
population itself, pop.headD ind is exactly population[0]. -/
def hofUpdateGo (maxsize : Nat) (first : Individual → Individual) :
    List Individual → List Individual → List Individual
  | [], items => items
  | ind :: rest, items =>
    hofUpdateGo maxsize first rest (hofUpdateOne maxsize (first ind) items ind)

/-- deap.tools.HallOfFame.update as called at base.py line 639. -/
def hofUpdate (h : HallOfFame) (pop : List Individual) : HallOfFame :=
  ⟨h.maxsize, hofUpdateGo h.maxsize (fun ind => pop.headD ind) pop h.items⟩

/-- The best fitness in the hall of fame: the head of the descending-sorted
item list (none when empty). -/
def hofMax : List Individual → Option Rat
  | [] => none
  | x :: _ => x.fitness

/-- The earlier individual is not strictly below the later one: the
ordering relation of a descending-sorted hall of fame. -/
@[reducible]
def fitGeP (x y : Individual) : Prop := fitLt x.fitness y.fitness = false

/-- The item-level hall-of-fame invariant: at most m items, ranked by
fitness descending, no two equal genomes. -/
@[reducible]
def hofInvItems (m : Nat) (items : List Individual) : Prop :=
  items.length ≤ m
    ∧ List.Pairwise fitGeP items
    ∧ (items.map (fun i => i.genome)).Nodup

/-- The hall-of-fame invariant of claim C9: at most maxsize items, ranked by
fitness descending, no two equal genomes. -/
@[reducible]
def HofInv (h : HallOfFame) : Prop := hofInvItems h.maxsize h.items

/-- One per-generation logbook record: logbook.record(gen=gen,
nevals=len(invalid_ind), **record) with the registered statistics
avg, min, max over the population fitness values. -/
structure LogRecord where
  gen : Nat
  nevals : Nat
  avg : Rat
  minFit : Rat
  maxFit : Rat
deriving DecidableEq, Repr

/-- The fitness values of a population, as read by the Statistics key
lambda ind: ind.fitness.values (all fitnesses are valid when the
statistics are compiled; 0 stands for the unreachable invalid case). -/
def fitValues (pop : List Individual) : List Rat :=
  pop.map (fun i => i.fitness.getD 0)

def ratSum (l : List Rat) : Rat := l.foldl (fun a b => a + b) 0

def listMin : List Rat → Rat
  | [] => 0
  | x :: xs => xs.foldl (fun a b => if b < a then b else a) x

def listMax : List Rat → Rat
  | [] => 0
  | x :: xs => xs.foldl (fun a b => if a < b then b else a) x

/-- stats.compile(population) merged into the logbook record of the
generation: gen, nevals, and np.mean / np.min / np.max over the population
fitness values (base.py lines 419-422 and 641-643). -/
def compileStats (gen nevals : Nat) (pop : List Individual) : LogRecord :=
  ⟨gen, nevals, ratSum (fitValues pop) / (fitValues pop).length,
    listMin (fitValues pop), listMax (fitValues pop)⟩

/-- The checkpoint record written at base.py lines 663-667:
dict(population=..., generation=..., halloffame=..., logbook=...,
rndstate=random.getstate()). -/
structure Checkpoint where
  population : List Individual
  generation : Nat
  halloffame : HallOfFame
  logbook : List LogRecord
  rndstate : Nat
deriving DecidableEq, Repr

/-- File events of one run, in program order: the per-generation progress
header and rows, the per-generation checkpoint dump, and the populations /
logbook csv exports. -/
inductive FileWrite where
  | progressHeader (path : String)
  | progressRow (path : String) (idx total : Nat) (genome : List Int) (fit : Rat)
  | checkpointFile (path : String) (gen : Nat) (cp : Checkpoint)
  | populationsCsv (pops : List (List Individual))
  | logbookCsv (lb : List LogRecord)
deriving DecidableEq, Repr

/-- python exceptions the embedded code can raise. -/
inductive PyError where
  | typeError
  | notADirectoryError (msg : String)
  | attributeError
  | osError
deriving DecidableEq, Repr

/-- The loop state of custom_ea_simple: the current population, the hall of
fame, the logbook, the random-stream position, and the accumulated
self.populations list. -/
structure EAState where
  population : List Individual
  halloffame : HallOfFame
  logbook : List LogRecord
  rngPos : Nat
  populations : List (List Individual)
deriving Repr

/-- Result of running (part of) custom_ea_simple: the final state or the
python exception, together with the file events and the genomes passed to
toolbox.evaluate, both in program order. -/
structure RunOutcome where
  result : Except PyError EAState
  writes : List FileWrite
  evals : List (List Int)

def joinPath (a b : String) : String := a ++ ("/") ++ b

def genCsvName (g : Nat) : String := ("Generation_") ++ toString g ++ (".csv")

def cpFileName (g : Nat) : String := ("cp_gen_") ++ toString g ++ (".pkl")

/-- Evaluation of the invalid individuals (base.py lines 617-628): each
individual with invalid fitness receives the value of evaluate_clf on its
own genome; valid individuals are untouched. -/
def fillFitness (cfg : EAConfig) (ind : Individual) : Individual :=
  match ind.fitness with
  | none => ⟨ind.genome, some (cfg.evalFit ind.genome)⟩
  | some _ => ind

/-- The progress rows appended at base.py lines 630-637: one semicolon row
per evaluated individual, numbered from 1, carrying the decoded individual
and its fitness. -/
def progressRows (cfg : EAConfig) (path : String) (total : Nat) :
    List Individual → Nat → List FileWrite
  | [], _ => []
  | i :: rest, c =>
    FileWrite.progressRow path c total i.genome (cfg.evalFit i.genome)
      :: progressRows cfg path total rest (c + 1)

/-- The body of one iteration of the generational loop of custom_ea_simple
(base.py lines 608-669), for a present progress path: write the progress
header, vary the pool with varAnd, evaluate exactly the individuals with
invalid fitness (writing one progress row each), update the hall of fame,
record the statistics in the logbook, select the next generation by
tournament, append to self.populations, dump the checkpoint when
checkpoint_flag is set, and export the populations and logbook csv files. -/
def stepCore (cfg : EAConfig) (pp : String) (flag : Bool)
    (cpPath : Option String) (g : Nat) (st : EAState) :
    EAState × List FileWrite × List (List Int) :=
  let pgPath := joinPath pp (genCsvName g)
  let v := varAnd cfg st.population st.rngPos
  let pop1 := v.1
  let invalid := pop1.filter (fun i => i.fitness.isNone)
  let rows := progressRows cfg pgPath invalid.length invalid 1
  let pop2 := pop1.map (fillFitness cfg)
  let hof2 := hofUpdate st.halloffame pop2
  let rec2 := compileStats g invalid.length pop2
  let lb2 := st.logbook ++ [rec2]
  let sel := selTournament cfg.rng cfg.tournsize pop2 pop2.length v.2
  let pop3 := sel.1
  let pops2 := st.populations ++ [pop3]
  let cpW := if flag then
      [FileWrite.checkpointFile (joinPath (cpPath.getD "") (cpFileName g)) g
        ⟨pop3, g, hof2, lb2, sel.2⟩]
    else []
  (⟨pop3, hof2, lb2, sel.2, pops2⟩,
    FileWrite.progressHeader pgPath :: rows ++ cpW
      ++ [FileWrite.populationsCsv pops2, FileWrite.logbookCsv lb2],
    invalid.map (fun i => i.genome))

/-- One iteration of the generational loop.  The first statement of the
loop body is progress_gen_path = os.path.join(self.progress_path, ...);
when self.progress_path is None, os.path.join raises TypeError before any
other effect of the generation. -/
def generationStep (cfg : EAConfig) (progressPath : Option String)
    (flag : Bool) (cpPath : Option String) (g : Nat) (st : EAState) :
    RunOutcome :=
  match progressPath with
  | none => ⟨Except.error PyError.typeError, [], []⟩
  | some pp =>
    let c := stepCore cfg pp flag cpPath g st
    ⟨Except.ok c.1, c.2.1, c.2.2⟩

/-- The generational loop of custom_ea_simple over the listed generation
indices, accumulating file events and evaluation calls, stopping at the
first python exception. -/
def eaLoop (cfg : EAConfig) (pp : Option String) (flag : Bool)
    (cpPath : Option String) : List Nat → EAState → RunOutcome
  | [], st => ⟨Except.ok st, [], []⟩
  | g :: gs, st =>
    let o := generationStep cfg pp flag cpPath g st
    match o.result with
    | Except.error e => ⟨Except.error e, o.writes, o.evals⟩
    | Except.ok st2 =>
      let r := eaLoop cfg pp flag cpPath gs st2
      ⟨r.result, o.writes ++ r.writes, o.evals ++ r.evals⟩

/-- The exception-free restatement of the loop used by the lemmas: final
state, file events and evaluation calls of running the listed generations
with a present progress path. -/
def eaRun (cfg : EAConfig) (pp : String) (flag : Bool)
    (cpPath : Option String) : List Nat → EAState →
    EAState × List FileWrite × List (List Int)
  | [], st => (st, [], [])
  | g :: gs, st =>
    let o := stepCore cfg pp flag cpPath g st
    let r := eaRun cfg pp flag cpPath gs o.1
    (r.1, o.2.1 ++ r.2.1, o.2.2 ++ r.2.2)

/-- The guard of custom_ea_simple at base.py line 599: checkpoint_path is
None or not a directory. -/
def badDir (cpPath : Option String) (isDir : String → Bool) : Bool :=
  match cpPath with
  | none => true
  | some p => !(isDir p)

def pathAsStr : Option String → String
  | none => "None"
  | some p => p

/-- The error message of the NotADirectoryError raised at base.py
lines 600-603. -/
def badDirMsg (cpPath : Option String) : String :=
  ("checkpoint_flag is True and checkpoint_path ") ++ pathAsStr cpPath
    ++ (" is not a folder or does not exist")

/-- custom_ea_simple (base.py lines 537-671): when checkpoint persistence is
enabled and the checkpoint path is missing or not a directory, raise
NotADirectoryError before the loop; otherwise run the generational loop for
gen in range(start_gen, ngen + 1). -/
def custom_ea_simple (cfg : EAConfig) (pp : Option String) (flag : Bool)
    (cpPath : Option String) (isDir : String → Bool)
    (start_gen ngen : Nat) (st : EAState) : RunOutcome :=
  if flag && badDir cpPath isDir then
    ⟨Except.error (PyError.notADirectoryError (badDirMsg cpPath)), [], []⟩
  else
    eaLoop cfg pp flag cpPath (List.range' start_gen (ngen + 1 - start_gen)) st

/-- The path attributes of BaseOptimizer relevant to optimize_clf. -/
structure OptimizerState where
  folder : String
  exePath : Option String
  checkpointPath : Option String
  progressPath : Option String
  resultsPath : Option String
  graphicsPath : Option String
deriving DecidableEq, Repr

/-- BaseOptimizer.__init__ (base.py lines 122-128): every path attribute
except the main folder starts as None. -/
def initOptimizerState (folder : String) : OptimizerState :=
  ⟨folder, none, none, none, none, none⟩

/-- os.path.dirname: everything before the last path separator. -/
def dirname (s : String) : String :=
  match (s.splitOn ("/")).dropLast with
  | [] => ""
  | ps => String.intercalate ("/") ps

/-- The resume branch of optimize_clf (base.py lines 448-460): the
checkpoint, results and graphics paths are derived from the checkpoint
file's directory; every other path attribute is left as constructed. -/
def resumePaths (opt : OptimizerState) (cpFile : String) : OptimizerState :=
  { opt with
      checkpointPath := some (dirname cpFile),
      resultsPath := some (joinPath (dirname cpFile) ("results")),
      graphicsPath := some (joinPath (dirname cpFile) ("graphics")) }

/-- The fresh-run branch of optimize_clf (base.py lines 461-484): a new
execution tree folder/exe_name with checkpoints, results, graphics and
progress subdirectories. -/
def freshPaths (opt : OptimizerState) (exeName : String) : OptimizerState :=
  let exe := joinPath opt.folder exeName
  { opt with
      exePath := some exe,
      checkpointPath := some (joinPath exe ("checkpoints")),
      resultsPath := some (joinPath exe ("results")),
      graphicsPath := some (joinPath exe ("graphics")),
      progressPath := some (joinPath exe ("progress")) }

/-- BaseOptimizer.init_individual (base.py lines 186-204): one
randint(min_value, max_value) draw per hyperparameter dimension, in
dictionary order. -/
def init_individual (cfg : EAConfig) : List (Int × Int) → Nat → List Int × Nat
  | [], s => ([], s)
  | (lo, hi) :: bs, s =>
    let r := init_individual cfg bs (s + 1)
    (cfg.rng.intAt s lo hi :: r.1, r.2)

/-- toolbox.population(n=population) at base.py line 444: n fresh
individuals with unset fitness. -/
def initPopulation (cfg : EAConfig) : Nat → Nat → List Individual × Nat
  | 0, s => ([], s)
  | n + 1, s =>
    let i := init_individual cfg cfg.bounds s
    let r := initPopulation cfg n i.2
    (⟨i.1, none⟩ :: r.1, r.2)

/-- Outcome of attempting to create the multiprocessing worker pool. -/
inductive PoolStatus where
  | available
  | importError
  | creationError
deriving DecidableEq, Repr

/-- The parallel block of optimize_clf (base.py lines 432-438): on success
pool.map is registered as toolbox.map (true); an ImportError is caught and
answered by self.optimization_logger.warning(...) — but when the logger is
still None (as it is at that point of optimize_clf, set at line 119), the
handler itself raises AttributeError; any other pool-creation failure
(e.g. OSError on resource exhaustion) is not caught and propagates. -/
def parallelSetup (useParallel : Bool) (status : PoolStatus)
    (logger : Option Unit) : Except PyError Bool :=
  if useParallel then
    match status with
    | PoolStatus.available => Except.ok true
    | PoolStatus.importError =>
      match logger with
      | some _ => Except.ok false
      | none => Except.error PyError.attributeError
    | PoolStatus.creationError => Except.error PyError.osError
  else Except.ok false

/-- Return record of optimize_clf: the genome of hof[0] (the classifier the
method builds from it), the final loop state and paths, and the run's file
events and evaluation calls.  The post-loop csv and html exports (base.py
lines 517-531) are outside the claims and omitted. -/
structure OptRunResult where
  best : Option (List Int)
  state : EAState
  paths : OptimizerState
  writes : List FileWrite
  evals : List (List Int)

def isOkE : Except PyError OptRunResult → Bool
  | Except.ok _ => true
  | Except.error _ => false

/-- optimize_clf (base.py lines 394-535): register the toolbox (the
parallel block runs with optimization_logger still None), draw the initial
population, then either restore population / generation / hall of fame /
logbook / random state from the checkpoint (continuing at
saved generation + 1, with checkpoint, results and graphics paths taken
from the checkpoint file's directory) or set up a fresh execution tree and
start at generation 0 with a capacity-10 hall of fame, and finally run
custom_ea_simple with cxpb = mutpb = 0.5 and checkpointing enabled. -/
def optimize_clf (cfg : EAConfig) (opt : OptimizerState) (exeName : String)
    (population generations : Nat) (checkpoint : Option (String × Checkpoint))
    (useParallel : Bool) (pool : PoolStatus) (isDir : String → Bool)
    (seedPos : Nat) : Except PyError OptRunResult :=
  match parallelSetup useParallel pool none with
  | Except.error e => Except.error e
  | Except.ok _ =>
    let ip := initPopulation cfg population seedPos
    match checkpoint with
    | some cpc =>
      let paths := resumePaths opt cpc.1
      let st0 : EAState :=
        ⟨cpc.2.population, cpc.2.halloffame, cpc.2.logbook, cpc.2.rndstate, []⟩
      let out := custom_ea_simple cfg paths.progressPath true
        paths.checkpointPath isDir (cpc.2.generation + 1) generations st0
      match out.result with
      | Except.error e => Except.error e
      | Except.ok stF =>
        Except.ok ⟨(stF.halloffame.items.head?).map (fun i => i.genome),
          stF, paths, out.writes, out.evals⟩
    | none =>
      let paths := freshPaths opt exeName
      let st0 : EAState := ⟨ip.1, ⟨10, []⟩, [], ip.2, []⟩
      let out := custom_ea_simple cfg paths.progressPath true
        paths.checkpointPath isDir 0 generations st0
      match out.result with
      | Except.error e => Except.error e
      | Except.ok stF =>
        Except.ok ⟨(stF.halloffame.items.head?).map (fun i => i.genome),
          stF, paths, out.writes, out.evals⟩

/-- Keys of a python dict modelled as an ordered association list. -/
def dictKeys {α : Type} (d : List (String × α)) : List String :=
  d.map (fun p => p.1)

/-- Lookup in a python dict modelled as an ordered association list. -/
def lookupD {α : Type} : List (String × α) → String → Option α
  | [], _ => none
  | p :: rest, k => if p.1 == k then some p.2 else lookupD rest k

/-- BaseOptimizer.get_hyperparams (base.py lines 226-257): remove every
dimension named in the fixed set from the defaults, substitute the caller
override for each remaining default dimension when present, and admit every
caller-supplied dimension whose name is in neither the defaults nor the
fixed set.  The source iterates the additional keys as a python set; here
they are kept in the caller's order, which the lookup-level theorem does
not depend on. -/
def get_hyperparams {α : Type} (defaults custom : List (String × α))
    (fixedKeys : List String) : List (String × α) :=
  let defaults2 := defaults.filter (fun p => !(fixedKeys.contains p.1))
  let merged := defaults2.map (fun p => (p.1, (lookupD custom p.1).getD p.2))
  let additional := custom.filter
    (fun p => !((dictKeys defaults).contains p.1) && !(fixedKeys.contains p.1))
  merged ++ additional

/-- Relation between an individual slot before and after varAnd: either the
offspring in that slot was touched by crossover or mutation (and then its
fitness was invalidated), or it is the unchanged parent, fitness included. -/
def varyRel (old new : Individual) : Prop := new.fitness = none ∨ new = old

/-- Projection selecting the checkpoint dumps among the file events. -/
def cpProj : FileWrite → Option (String × Nat × Checkpoint)
  | FileWrite.checkpointFile p g cp => some (p, g, cp)
  | _ => none

/-- The rational one half, in normalized literal form (the probability
cxpb = mutpb = indpb = 0.5 of the source). -/
def half : Rat := ⟨1, 2, by decide, by decide⟩

/-- The rational one quarter, in normalized literal form. -/
def quarter : Rat := ⟨1, 4, by decide, by decide⟩

/-- The rational three quarters, in normalized literal form. -/
def threeQuarters : Rat := ⟨3, 4, by decide, by decide⟩

/-- Concrete random oracle for counterexamples and witnesses. -/
def exRng : RandGen :=
  ⟨fun s => if s == 0 then threeQuarters else quarter,
    fun _ lo _ => lo⟩

/-- Concrete engine configuration (two dimensions, fitness = genome sum,
the operator parameters the source registers). -/
def exCfg : EAConfig :=
  ⟨exRng, fun g => ((g.foldl (fun a b => a + b) 0 : Int) : Rat),
    [(0, 9), (0, 5)], half, half, half, 4⟩

/-- Concrete loop state for witnesses. -/
def exSt : EAState :=
  ⟨[⟨[3, 2], none⟩, ⟨[1, 4], some 5⟩], ⟨10, [⟨[2, 2], some 4⟩]⟩,
    [⟨0, 2, 4, 4, 5⟩], 1, []⟩

/-- Concrete checkpoint contents for the resume run of claim C1. -/
def c1Cp : Checkpoint :=
  ⟨[⟨[1, 2], some 3⟩, ⟨[0, 1], some 1⟩], 1, ⟨10, [⟨[1, 2], some 3⟩]⟩,
    [⟨0, 2, 2, 1, 3⟩, ⟨1, 2, 2, 1, 3⟩], 37⟩

theorem fitLt_irrefl (a : Option Rat) : fitLt a a = false := by
  cases a with
  | none => rfl
  | some x => simp [fitLt]

theorem fitLt_asymm {a b : Option Rat} (h : fitLt a b = true) :
    fitLt b a = false := by
  cases a <;> cases b <;> simp_all [fitLt]
  exact le_of_lt h

theorem fitLt_of_lt_of_nlt {a x y : Option Rat} (h1 : fitLt a y = true)
    (h2 : fitLt x y = false) : fitLt a x = true := by
  cases a <;> cases x <;> cases y <;> simp_all [fitLt]
  exact lt_of_lt_of_le h1 h2

theorem fitLe_refl (a : Option Rat) : fitLe a a := fitLt_irrefl a

theorem fitLe_of_lt {a b : Option Rat} (h : fitLt a b = true) : fitLe a b :=
  fitLt_asymm h

theorem fitLe_trans {a b c : Option Rat} (h1 : fitLe a b) (h2 : fitLe b c) :
    fitLe a c := by
  unfold fitLe at h1 h2 ⊢
  cases hlt : fitLt c a with
  | false => rfl
  | true => exact absurd (fitLt_of_lt_of_nlt hlt h1) (by simp [h2])

theorem hofInsert_mem (a : Individual) :
    ∀ (l : List Individual) (b : Individual),
      b ∈ hofInsert a l → b = a ∨ b ∈ l := by
  intro l
  induction l with
  | nil =>
    intro b hb
    simp [hofInsert] at hb
    exact Or.inl hb
  | cons x xs ih =>
    intro b hb
    by_cases h : fitLt a.fitness x.fitness = true
    · rw [hofInsert, if_pos h] at hb
      rcases List.mem_cons.mp hb with h1 | h2
      · exact Or.inr (h1 ▸ List.mem_cons_self x xs)
      · rcases ih b h2 with h3 | h4
        · exact Or.inl h3
        · exact Or.inr (List.mem_cons_of_mem x h4)
    · rw [hofInsert, if_neg h] at hb
      rcases List.mem_cons.mp hb with h1 | h2
      · exact Or.inl h1
      · exact Or.inr h2

theorem hofInsert_length (a : Individual) :
    ∀ l : List Individual, (hofInsert a l).length = l.length + 1 := by
  intro l
  induction l with
  | nil => rfl
  | cons x xs ih =>
    by_cases h : fitLt a.fitness x.fitness = true
    · rw [hofInsert, if_pos h]
      simp [ih]
    · rw [hofInsert, if_neg h]
      simp

theorem hofInsert_perm (a : Individual) :
    ∀ l : List Individual, List.Perm (hofInsert a l) (a :: l) := by
  intro l
  induction l with
  | nil => exact List.Perm.refl _
  | cons x xs ih =>
    by_cases h : fitLt a.fitness x.fitness = true
    · rw [hofInsert, if_pos h]
      exact (ih.cons x).trans (List.Perm.swap a x xs)
    · rw [hofInsert, if_neg h]

theorem pairwise_hofInsert (a : Individual) :
    ∀ l : List Individual, List.Pairwise fitGeP l →
      List.Pairwise fitGeP (hofInsert a l) := by
  intro l
  induction l with
  | nil =>
    intro _
    simp [hofInsert]
  | cons x xs ih =>
    intro h
    rw [List.pairwise_cons] at h
    by_cases hc : fitLt a.fitness x.fitness = true
    · rw [hofInsert, if_pos hc, List.pairwise_cons]
      constructor
      · intro y hy
        rcases hofInsert_mem a xs y hy with h1 | h2
        · subst h1
          exact fitLt_asymm hc
        · exact h.1 y h2
      · exact ih h.2
    · rw [hofInsert, if_neg hc, List.pairwise_cons]
      constructor
      · intro y hy
        rcases List.mem_cons.mp hy with h1 | h2
        · subst h1
          exact Bool.eq_false_iff.mpr hc
        · have hxy := h.1 y h2
          cases hay : fitLt a.fitness y.fitness with
          | false => exact hay
          | true => exact absurd (fitLt_of_lt_of_nlt hay hxy) hc
      · exact List.pairwise_cons.mpr h

theorem hofMax_hofInsert (a : Individual) (l : List Individual) :
    fitLe (hofMax l) (hofMax (hofInsert a l)) := by
  cases l with
  | nil =>
    show fitLt a.fitness none = false
    cases a.fitness <;> rfl
  | cons x xs =>
    by_cases hc : fitLt a.fitness x.fitness = true
    · rw [hofInsert, if_pos hc]
      exact fitLe_refl _
    · rw [hofInsert, if_neg hc]
      exact Bool.eq_false_iff.mpr hc

theorem hofMax_isMax (items : List Individual)
    (hp : List.Pairwise fitGeP items) :
    ∀ i ∈ items, fitLe i.fitness (hofMax items) := by
  cases items with
  | nil => intro i hi; cases hi
  | cons x xs =>
    intro i hi
    rcases List.mem_cons.mp hi with h1 | h2
    · subst h1
      exact fitLe_refl _
    · exact (List.pairwise_cons.mp hp).1 i h2

theorem hofUpdateOne_inv (m : Nat) (hm : 0 < m) (first ind : Individual)
    (items : List Individual) (h : hofInvItems m items) :
    hofInvItems m (hofUpdateOne m first items ind)
      ∧ fitLe (hofMax items) (hofMax (hofUpdateOne m first items ind)) := by
  obtain ⟨hlen, hpw, hnd⟩ := h
  unfold hofUpdateOne
  by_cases h1 : items.length = 0 ∧ m ≠ 0
  · have he : items = [] := List.length_eq_zero.mp h1.1
    subst he
    rw [if_pos h1]
    refine ⟨⟨?_, ?_, ?_⟩, ?_⟩
    · simpa [hofInsert] using hm
    · simp [hofInsert]
    · simp [hofInsert]
    · show fitLt (hofMax (hofInsert first [])) (hofMax []) = false
      cases hf : first.fitness <;> simp [hofInsert, hofMax, fitLt, hf]
  · rw [if_neg h1]
    by_cases h2 : fitLt (hofLastFit items) ind.fitness = true ∨ items.length < m
    · rw [if_pos h2]
      by_cases h3 : items.any (fun h => h.genome == ind.genome) = true
      · rw [if_pos h3]
        exact ⟨⟨hlen, hpw, hnd⟩, fitLe_refl _⟩
      · rw [if_neg h3]
        have hmne : m ≠ 0 := Nat.pos_iff_ne_zero.mp hm
        have hne : items ≠ [] := by
          intro he
          exact h1 ⟨by simp [he], hmne⟩
        have hfresh : ind.genome ∉ items.map (fun i => i.genome) := by
          intro hmem
          rcases List.mem_map.mp hmem with ⟨x, hx, hxg⟩
          exact h3 (List.any_eq_true.mpr ⟨x, hx, by simp [hxg]⟩)
        by_cases h4 : m ≤ items.length
        · rw [if_pos h4]
          have hsub : items.dropLast.Sublist items := List.dropLast_sublist items
          refine ⟨⟨?_, ?_, ?_⟩, ?_⟩
          · rw [hofInsert_length, List.length_dropLast]
            have hpos : 0 < items.length := List.length_pos.mpr hne
            omega
          · exact pairwise_hofInsert ind items.dropLast
              (List.Pairwise.sublist hsub hpw)
          · have hperm := (hofInsert_perm ind items.dropLast).map
              (fun i => i.genome)
            refine (List.Perm.nodup_iff hperm).mpr ?_
            refine List.nodup_cons.mpr ⟨?_, ?_⟩
            · intro hmem
              exact hfresh ((hsub.map (fun i => i.genome)).subset hmem)
            · exact List.Nodup.sublist (hsub.map (fun i => i.genome)) hnd
          · obtain ⟨x, xs, rfl⟩ := List.exists_cons_of_ne_nil hne
            cases xs with
            | nil =>
              have hm1 : m = 1 := by
                simp at h4
                omega
              have hl : fitLt (hofLastFit [x]) ind.fitness = true := by
                rcases h2 with hl | hl
                · exact hl
                · omega
              have hx : fitLt x.fitness ind.fitness = true := by
                simpa [hofLastFit] using hl
              show fitLt (hofMax (hofInsert ind [])) x.fitness = false
              simpa [hofInsert, hofMax] using fitLt_asymm hx
            | cons y ys =>
              have hd : (x :: y :: ys).dropLast = x :: (y :: ys).dropLast := rfl
              rw [hd]
              exact hofMax_hofInsert ind (x :: (y :: ys).dropLast)
        · rw [if_neg h4]
          refine ⟨⟨?_, ?_, ?_⟩, ?_⟩
          · rw [hofInsert_length]
            omega
          · exact pairwise_hofInsert ind items hpw
          · have hperm := (hofInsert_perm ind items).map (fun i => i.genome)
            refine (List.Perm.nodup_iff hperm).mpr ?_
            exact List.nodup_cons.mpr ⟨hfresh, hnd⟩
          · exact hofMax_hofInsert ind items
    · rw [if_neg h2]
      exact ⟨⟨hlen, hpw, hnd⟩, fitLe_refl _⟩

theorem hofUpdateGo_inv (m : Nat) (hm : 0 < m) (first : Individual → Individual) :
    ∀ (l : List Individual) (items : List Individual), hofInvItems m items →
      hofInvItems m (hofUpdateGo m first l items)
        ∧ fitLe (hofMax items) (hofMax (hofUpdateGo m first l items)) := by
  intro l
  induction l with
  | nil =>
    intro items h
    exact ⟨h, fitLe_refl _⟩
  | cons ind rest ih =>
    intro items h
    have h1 := hofUpdateOne_inv m hm (first ind) ind items h
    have h2 := ih (hofUpdateOne m (first ind) items ind) h1.1
    exact ⟨h2.1, fitLe_trans h1.2 h2.2⟩

theorem hofUpdate_inv (h : HallOfFame) (pop : List Individual)
    (hm : 0 < h.maxsize) (hinv : HofInv h) :
    HofInv (hofUpdate h pop) ∧ (hofUpdate h pop).maxsize = h.maxsize
      ∧ fitLe (hofMax h.items) (hofMax (hofUpdate h pop).items) := by
  have hgo := hofUpdateGo_inv h.maxsize hm (fun ind => pop.headD ind) pop
    h.items hinv
  exact ⟨hgo.1, rfl, hgo.2⟩

/-- C9: at every point of the run the hall of fame holds at most
maxsize individuals (10 as created in optimize_clf) with no two equal
genomes, ranked by fitness descending, and one generation step can only
raise (never lower) its maximum fitness; the hall optimize_clf starts with
(capacity 10, empty) satisfies the invariant.  The fourth conjunct states
that the head the monotonicity speaks about is indeed the maximum of the
hall. -/
theorem hall_of_fame_invariants (cfg : EAConfig) (p : String) (flag : Bool)
    (cpPath : Option String) (g : Nat) (st : EAState)
    (hm : 0 < st.halloffame.maxsize) (hinv : HofInv st.halloffame) :
    HofInv (stepCore cfg p flag cpPath g st).1.halloffame
      ∧ (stepCore cfg p flag cpPath g st).1.halloffame.maxsize
          = st.halloffame.maxsize
      ∧ fitLe (hofMax st.halloffame.items)
          (hofMax (stepCore cfg p flag cpPath g st).1.halloffame.items)
      ∧ (∀ i ∈ (stepCore cfg p flag cpPath g st).1.halloffame.items,
          fitLe i.fitness
            (hofMax (stepCore cfg p flag cpPath g st).1.halloffame.items))
      ∧ HofInv ⟨10, []⟩ := by
  have hh : (stepCore cfg p flag cpPath g st).1.halloffame
      = hofUpdate st.halloffame
          (((varAnd cfg st.population st.rngPos).1).map (fillFitness cfg)) := rfl
  rw [hh]
  have hu := hofUpdate_inv st.halloffame
    (((varAnd cfg st.population st.rngPos).1).map (fillFitness cfg)) hm hinv
  refine ⟨hu.1, hu.2.1, hu.2.2, ?_, ?_⟩
  · exact hofMax_isMax _ hu.1.2.1
  · exact ⟨by simp, List.Pairwise.nil, List.nodup_nil⟩

theorem hall_of_fame_invariants_witness :
    (0 < exSt.halloffame.maxsize) ∧ HofInv exSt.halloffame
      ∧ (HofInv (stepCore exCfg ("p") true (some ("cp")) 1 exSt).1.halloffame
        ∧ (stepCore exCfg ("p") true (some ("cp")) 1 exSt).1.halloffame.maxsize
            = exSt.halloffame.maxsize
        ∧ fitLe (hofMax exSt.halloffame.items)
            (hofMax (stepCore exCfg ("p") true (some ("cp")) 1 exSt).1.halloffame.items)
        ∧ (∀ i ∈ (stepCore exCfg ("p") true (some ("cp")) 1 exSt).1.halloffame.items,
            fitLe i.fitness
              (hofMax (stepCore exCfg ("p") true (some ("cp")) 1 exSt).1.halloffame.items))
        ∧ HofInv ⟨10, []⟩) :=
  ⟨by decide, by decide,
    hall_of_fame_invariants exCfg ("p") true (some ("cp")) 1 exSt
      (by decide) (by decide)⟩

theorem crossPairs_forall2 (g : RandGen) (cxpb : Rat) :
    ∀ (l : List Individual) (s : Nat),
      List.Forall₂ varyRel l (crossPairs g cxpb l s).1
  | [], _ => by simp [crossPairs]
  | [a], _ => by
    simp only [crossPairs]
    exact List.Forall₂.cons (Or.inr rfl) List.Forall₂.nil
  | a :: b :: rest, s => by
    by_cases hc : g.floatAt s < cxpb
    · simp only [crossPairs, if_pos hc]
      exact List.Forall₂.cons (Or.inl rfl)
        (List.Forall₂.cons (Or.inl rfl) (crossPairs_forall2 g cxpb rest _))
    · simp only [crossPairs, if_neg hc]
      exact List.Forall₂.cons (Or.inr rfl)
        (List.Forall₂.cons (Or.inr rfl) (crossPairs_forall2 g cxpb rest _))

theorem mutateAll_forall2 (g : RandGen) (mp ip : Rat)
    (bounds : List (Int × Int)) :
    ∀ (l : List Individual) (s : Nat),
      List.Forall₂ varyRel l (mutateAll g mp ip bounds l s).1 := by
  intro l
  induction l with
  | nil => intro s; simp [mutateAll]
  | cons a rest ih =>
    intro s
    by_cases hc : g.floatAt s < mp
    · simp only [mutateAll, if_pos hc]
      exact List.Forall₂.cons (Or.inl rfl) (ih _)
    · simp only [mutateAll, if_neg hc]
      exact List.Forall₂.cons (Or.inr rfl) (ih _)

theorem varyRel_trans : ∀ {a b c : List Individual},
    List.Forall₂ varyRel a b → List.Forall₂ varyRel b c →
      List.Forall₂ varyRel a c := by
  intro a b c h1 h2
  induction h1 generalizing c with
  | nil =>
    cases h2
    exact List.Forall₂.nil
  | @cons x y xs ys hr hrest ih =>
    cases h2 with
    | cons hr2 hrest2 =>
      refine List.Forall₂.cons ?_ (ih hrest2)
      rcases hr2 with hn | he
      · exact Or.inl hn
      · subst he
        exact hr

theorem varAnd_forall2 (cfg : EAConfig) (pop : List Individual) (s : Nat) :
    List.Forall₂ varyRel pop (varAnd cfg pop s).1 :=
  varyRel_trans (crossPairs_forall2 cfg.rng cfg.cxpb pop s)
    (mutateAll_forall2 cfg.rng cfg.mutpb cfg.indpb cfg.bounds
      (crossPairs cfg.rng cfg.cxpb pop s).1
      (crossPairs cfg.rng cfg.cxpb pop s).2)

/-- C3: in every generation, every slot of the varied population either
was touched (fitness invalidated) or is the unchanged parent with its valid
fitness; the genomes handed to toolbox.evaluate are exactly, in order and
once each, those of the individuals with invalid fitness after variation;
the logbook record appended for the generation carries
nevals = count of invalid-fitness individuals; and the evaluation fill
leaves every valid-fitness individual unchanged. -/
theorem selective_evaluation (cfg : EAConfig) (p : String) (flag : Bool)
    (cpPath : Option String) (g : Nat) (st : EAState) :
    List.Forall₂ varyRel st.population (varAnd cfg st.population st.rngPos).1
      ∧ (stepCore cfg p flag cpPath g st).2.2
          = (((varAnd cfg st.population st.rngPos).1).filter
              (fun i => i.fitness.isNone)).map (fun i => i.genome)
      ∧ (stepCore cfg p flag cpPath g st).1.logbook
          = st.logbook ++ [compileStats g
              (((varAnd cfg st.population st.rngPos).1).filter
                (fun i => i.fitness.isNone)).length
              (((varAnd cfg st.population st.rngPos).1).map (fillFitness cfg))]
      ∧ (compileStats g
            (((varAnd cfg st.population st.rngPos).1).filter
              (fun i => i.fitness.isNone)).length
            (((varAnd cfg st.population st.rngPos).1).map
              (fillFitness cfg))).nevals
          = ((varAnd cfg st.population st.rngPos).1).countP
              (fun i => i.fitness.isNone)
      ∧ (∀ ind : Individual, ind.fitness.isSome = true →
          fillFitness cfg ind = ind) := by
  refine ⟨varAnd_forall2 cfg st.population st.rngPos, rfl, rfl, ?_, ?_⟩
  · exact (List.countP_eq_length_filter _ _).symm
  · intro ind hs
    rcases Option.isSome_iff_exists.mp hs with ⟨v, hv⟩
    simp [fillFitness, hv]

theorem eaLoop_eq_eaRun (cfg : EAConfig) (pp : String) (flag : Bool)
    (cpPath : Option String) :
    ∀ (gens : List Nat) (st : EAState),
      eaLoop cfg (some pp) flag cpPath gens st
        = ⟨Except.ok (eaRun cfg pp flag cpPath gens st).1,
            (eaRun cfg pp flag cpPath gens st).2.1,
            (eaRun cfg pp flag cpPath gens st).2.2⟩ := by
  intro gens
  induction gens with
  | nil => intro st; rfl
  | cons g gs ih =>
    intro st
    simp only [eaLoop, generationStep, eaRun]
    rw [ih]

theorem eaRun_logbook (cfg : EAConfig) (pp : String) (flag : Bool)
    (cpPath : Option String) :
    ∀ (gens : List Nat) (st : EAState),
      ((eaRun cfg pp flag cpPath gens st).1.logbook).map (fun r => r.gen)
        = st.logbook.map (fun r => r.gen) ++ gens := by
  intro gens
  induction gens with
  | nil => intro st; simp [eaRun]
  | cons g gs ih =>
    intro st
    have hstep : (stepCore cfg pp flag cpPath g st).1.logbook
        = st.logbook ++ [compileStats g
            (((varAnd cfg st.population st.rngPos).1).filter
              (fun i => i.fitness.isNone)).length
            (((varAnd cfg st.population st.rngPos).1).map
              (fillFitness cfg))] := rfl
    simp only [eaRun]
    rw [ih, hstep]
    simp [compileStats]

theorem cpProj_progressRows (cfg : EAConfig) (path : String) (t : Nat) :
    ∀ (l : List Individual) (c : Nat),
      (progressRows cfg path t l c).filterMap cpProj = [] := by
  intro l
  induction l with
  | nil => intro c; rfl
  | cons i rest ih =>
    intro c
    simp [progressRows, cpProj, ih c.succ]

theorem stepCore_writes_filterMap (cfg : EAConfig) (pp : String)
    (cpPath : Option String) (g : Nat) (st : EAState) :
    ((stepCore cfg pp true cpPath g st).2.1).filterMap cpProj
      = [(joinPath (cpPath.getD "") (cpFileName g), g,
          (⟨(stepCore cfg pp true cpPath g st).1.population, g,
            (stepCore cfg pp true cpPath g st).1.halloffame,
            (stepCore cfg pp true cpPath g st).1.logbook,
            (stepCore cfg pp true cpPath g st).1.rngPos⟩ : Checkpoint))] := by
  simp [stepCore, cpProj, cpProj_progressRows, List.filterMap_append]

theorem eaRun_cp (cfg : EAConfig) (pp : String) (cpPath : Option String) :
    ∀ (gens : List Nat) (st : EAState),
      ((((eaRun cfg pp true cpPath gens st).2.1).filterMap cpProj).map
          (fun x => x.2.1) = gens)
        ∧ ∀ x ∈ ((eaRun cfg pp true cpPath gens st).2.1).filterMap cpProj,
            x.1 = joinPath (cpPath.getD "") (cpFileName x.2.1)
              ∧ x.2.2.generation = x.2.1 := by
  intro gens
  induction gens with
  | nil =>
    intro st
    refine ⟨rfl, ?_⟩
    intro x hx
    simp [eaRun] at hx
  | cons g gs ih =>
    intro st
    have hstep := stepCore_writes_filterMap cfg pp cpPath g st
    simp only [eaRun]
    rw [List.filterMap_append, hstep]
    constructor
    · simp [(ih _).1]
    · intro x hx
      rcases List.mem_append.mp hx with h1 | h2
      · rcases List.mem_singleton.mp h1 with rfl
        exact ⟨rfl, rfl⟩
      · exact (ih _).2 x h2

/-- C5: when checkpoint persistence is enabled and the checkpoint path is
None, missing, or not a directory, custom_ea_simple raises
NotADirectoryError before executing any generation: no evaluation happens
and no file of any generation is written. -/
theorem failfast_bad_checkpoint_dir (cfg : EAConfig) (pp : Option String)
    (cpPath : Option String) (isDir : String → Bool) (start_gen ngen : Nat)
    (st : EAState) (hbad : badDir cpPath isDir = true) :
    custom_ea_simple cfg pp true cpPath isDir start_gen ngen st
      = ⟨Except.error (PyError.notADirectoryError (badDirMsg cpPath)), [], []⟩ := by
  unfold custom_ea_simple
  rw [hbad]
  simp

theorem failfast_bad_checkpoint_dir_witness :
    badDir none (fun _ => true) = true
      ∧ custom_ea_simple exCfg (some ("p")) true none (fun _ => true) 0 2 exSt
          = ⟨Except.error (PyError.notADirectoryError (badDirMsg none)), [], []⟩ :=
  ⟨rfl, failfast_bad_checkpoint_dir exCfg (some ("p")) none (fun _ => true)
    0 2 exSt rfl⟩

/-- C7: with a valid checkpoint directory (and the progress path present),
the generational loop of custom_ea_simple terminates with Except.ok,
returning the final state (population, logbook, hall of fame); it runs the
generation indices start_gen through ngen inclusive, appending one logbook
record per index, which for start_gen = 0 is ngen + 1 iterations. -/
theorem generational_loop_bounds (cfg : EAConfig) (pp cpDir : String)
    (isDir : String → Bool) (start_gen ngen : Nat) (st : EAState)
    (hdir : isDir cpDir = true) :
    (custom_ea_simple cfg (some pp) true (some cpDir) isDir start_gen ngen
          st).result
        = Except.ok (eaRun cfg pp true (some cpDir)
            (List.range' start_gen (ngen + 1 - start_gen)) st).1
      ∧ ((eaRun cfg pp true (some cpDir)
            (List.range' start_gen (ngen + 1 - start_gen)) st).1.logbook).map
          (fun r => r.gen)
        = st.logbook.map (fun r => r.gen)
            ++ List.range' start_gen (ngen + 1 - start_gen)
      ∧ (List.range' 0 (ngen + 1 - 0)).length = ngen + 1 := by
  have hbd : badDir (some cpDir) isDir = false := by simp [badDir, hdir]
  have hcc : custom_ea_simple cfg (some pp) true (some cpDir) isDir start_gen
      ngen st
      = eaLoop cfg (some pp) true (some cpDir)
          (List.range' start_gen (ngen + 1 - start_gen)) st := by
    unfold custom_ea_simple
    rw [hbd]
    simp
  refine ⟨?_, eaRun_logbook cfg pp true (some cpDir) _ st, by simp⟩
  rw [hcc, eaLoop_eq_eaRun]

theorem generational_loop_bounds_witness :
    ((fun _ => true) ("cpd") = true)
      ∧ ((custom_ea_simple exCfg (some ("pr")) true (some ("cpd"))
            (fun _ => true) 0 1 exSt).result
          = Except.ok (eaRun exCfg ("pr") true (some ("cpd"))
              (List.range' 0 (1 + 1 - 0)) exSt).1
        ∧ ((eaRun exCfg ("pr") true (some ("cpd"))
              (List.range' 0 (1 + 1 - 0)) exSt).1.logbook).map
            (fun r => r.gen)
          = exSt.logbook.map (fun r => r.gen) ++ List.range' 0 (1 + 1 - 0)
        ∧ (List.range' 0 (1 + 1 - 0)).length = 1 + 1) :=
  ⟨rfl, generational_loop_bounds exCfg ("pr") ("cpd") (fun _ => true)
    0 1 exSt rfl⟩

/-- C8: in a run with a valid checkpoint directory, the loop writes exactly
one checkpoint record per completed generation, in order, named
cp_gen_<g>.pkl under the checkpoint directory, carrying that generation
index inside the record; the written generation indices are pairwise
distinct, so no prior checkpoint file of the run is ever overwritten. -/
theorem checkpoint_per_generation (cfg : EAConfig) (pp cpDir : String)
    (isDir : String → Bool) (start_gen ngen : Nat) (st : EAState)
    (hdir : isDir cpDir = true) :
    (((custom_ea_simple cfg (some pp) true (some cpDir) isDir start_gen ngen
          st).writes.filterMap cpProj).map (fun x => x.2.1)
        = List.range' start_gen (ngen + 1 - start_gen))
      ∧ (((custom_ea_simple cfg (some pp) true (some cpDir) isDir start_gen
            ngen st).writes.filterMap cpProj).map (fun x => x.2.1)).Nodup
      ∧ ∀ x ∈ (custom_ea_simple cfg (some pp) true (some cpDir) isDir
            start_gen ngen st).writes.filterMap cpProj,
          x.1 = joinPath cpDir (cpFileName x.2.1)
            ∧ x.2.2.generation = x.2.1 := by
  have hbd : badDir (some cpDir) isDir = false := by simp [badDir, hdir]
  have hcc : custom_ea_simple cfg (some pp) true (some cpDir) isDir start_gen
      ngen st
      = eaLoop cfg (some pp) true (some cpDir)
          (List.range' start_gen (ngen + 1 - start_gen)) st := by
    unfold custom_ea_simple
    rw [hbd]
    simp
  rw [hcc, eaLoop_eq_eaRun]
  have h := eaRun_cp cfg pp (some cpDir)
    (List.range' start_gen (ngen + 1 - start_gen)) st
  refine ⟨h.1, ?_, ?_⟩
  · rw [h.1]
    exact List.nodup_range' _ _ 1 Nat.one_pos
  · intro x hx
    have hh := h.2 x hx
    simpa using hh

theorem checkpoint_per_generation_witness :
    ((fun _ => true) ("cpd") = true)
      ∧ ((((custom_ea_simple exCfg (some ("pr2")) true (some ("cpd"))
            (fun _ => true) 1 2 exSt).writes.filterMap cpProj).map
            (fun x => x.2.1) = List.range' 1 (2 + 1 - 1))
        ∧ ((((custom_ea_simple exCfg (some ("pr2")) true (some ("cpd"))
              (fun _ => true) 1 2 exSt).writes.filterMap cpProj).map
              (fun x => x.2.1)).Nodup)
        ∧ ∀ x ∈ (custom_ea_simple exCfg (some ("pr2")) true (some ("cpd"))
              (fun _ => true) 1 2 exSt).writes.filterMap cpProj,
            x.1 = joinPath ("cpd") (cpFileName x.2.1)
              ∧ x.2.2.generation = x.2.1) :=
  ⟨rfl, checkpoint_per_generation exCfg ("pr2") ("cpd") (fun _ => true)
    1 2 exSt rfl⟩

/-- C10: the resume branch of optimize_clf derives the checkpoint, results
and graphics paths from the checkpoint file's directory but leaves
progress_path exactly as constructed — and construction leaves it None —
even though the first statement of every generation of the loop opens the
per-generation progress file under progress_path (which, for a None
progress path, raises TypeError before any other effect). -/
theorem resume_progress_path_frame (folder cpFile : String)
    (opt : OptimizerState) (cfg : EAConfig) (flag : Bool)
    (cpPath : Option String) (g : Nat) (st : EAState) :
    (initOptimizerState folder).progressPath = none
      ∧ (resumePaths (initOptimizerState folder) cpFile).progressPath = none
      ∧ (resumePaths opt cpFile).checkpointPath = some (dirname cpFile)
      ∧ (resumePaths opt cpFile).resultsPath
          = some (joinPath (dirname cpFile) ("results"))
      ∧ (resumePaths opt cpFile).graphicsPath
          = some (joinPath (dirname cpFile) ("graphics"))
      ∧ (resumePaths opt cpFile).progressPath = opt.progressPath
      ∧ (resumePaths opt cpFile).exePath = opt.exePath
      ∧ generationStep cfg none flag cpPath g st
          = ⟨Except.error PyError.typeError, [], []⟩ :=
  ⟨rfl, rfl, rfl, rfl, rfl, rfl, rfl, rfl⟩

/-- C1 (code bug): a run resumed from a checkpoint crashes with TypeError
at the very first statement of the first resumed generation — the resume
branch leaves progress_path None, and os.path.join(None, ...) raises —
before any evaluation, so no resumed run can reproduce the uninterrupted
run; a fresh run with the same configuration completes normally. -/
theorem resume_crashes_before_first_generation :
    optimize_clf exCfg (initOptimizerState ("folder")) ("exe") 2 3
        (some (("folder/exe/checkpoints/cp_gen_1.pkl"), c1Cp)) false
        PoolStatus.available (fun _ => true) 0
      = Except.error PyError.typeError
    ∧ isOkE (optimize_clf exCfg (initOptimizerState ("folder")) ("exe") 2 3
        none false PoolStatus.available (fun _ => true) 0) = true :=
  ⟨rfl, rfl⟩

/-- C6 (code bug): with parallel mode on, a failed import of
multiprocessing is answered by optimization_logger.warning — but the
logger is still None inside optimize_clf, so the handler raises
AttributeError and the run aborts instead of degrading to sequential
evaluation; a pool-creation failure that is not an ImportError is not
caught at all and likewise aborts. -/
theorem parallel_pool_failure_aborts :
    parallelSetup true PoolStatus.importError none
        = Except.error PyError.attributeError
      ∧ (∀ logger : Option Unit,
          parallelSetup true PoolStatus.creationError logger
            = Except.error PyError.osError)
      ∧ optimize_clf exCfg (initOptimizerState ("f")) ("e") 1 0 none true
          PoolStatus.importError (fun _ => true) 0
        = Except.error PyError.attributeError :=
  ⟨rfl, fun _ => rfl, rfl⟩

/-- C2 counterexample: on a one-individual population the code draws one
mutation gate per individual (here 3/4 ≥ mutpb leaves the individual
untouched), while the claim's per-gene reading re-draws gene 1
(1/4 < mutpb), so the two variation results differ. -/
theorem variation_counterexample :
    (varAnd exCfg [⟨[5, 5], some 10⟩] 0).1
      ≠ (specVarAndClaim exCfg [⟨[5, 5], some 10⟩] 0).1 := by
  decide

theorem specMut_foldl (g : RandGen) (mp ip : Rat) (bounds : List (Int × Int)) :
    ∀ (l : List Individual) (acc : List Individual) (s : Nat),
      l.foldl (specMutStep g mp ip bounds) (acc, s)
        = (acc ++ (mutateAll g mp ip bounds l s).1,
            (mutateAll g mp ip bounds l s).2) := by
  intro l
  induction l with
  | nil => intro acc s; simp [mutateAll]
  | cons a rest ih =>
    intro acc s
    by_cases hc : g.floatAt s < mp
    · have hstep : specMutStep g mp ip bounds (acc, s) a
          = (acc ++ [⟨(mutUniformInt g ip a.genome bounds (s + 1)).1, none⟩],
              (mutUniformInt g ip a.genome bounds (s + 1)).2) := by
        simp [specMutStep, hc]
      rw [List.foldl_cons, hstep, ih]
      simp [mutateAll, hc, List.append_assoc]
    · have hstep : specMutStep g mp ip bounds (acc, s) a
          = (acc ++ [a], s + 1) := by
        simp [specMutStep, hc]
      rw [List.foldl_cons, hstep, ih]
      simp [mutateAll, hc, List.append_assoc]

theorem specCross_foldl (g : RandGen) (cxpb : Rat) :
    ∀ (l : List Individual) (acc : List Individual) (s : Nat),
      ((((pairChunks l).1).foldl (specCrossStep g cxpb) (acc, s)).1
          ++ (pairChunks l).2,
        (((pairChunks l).1).foldl (specCrossStep g cxpb) (acc, s)).2)
        = (acc ++ (crossPairs g cxpb l s).1, (crossPairs g cxpb l s).2)
  | [], acc, s => by simp [pairChunks, crossPairs]
  | [a], acc, s => by simp [pairChunks, crossPairs]
  | a :: b :: rest, acc, s => by
    have hpc : pairChunks (a :: b :: rest)
        = ((a, b) :: (pairChunks rest).1, (pairChunks rest).2) := rfl
    simp only [hpc]
    by_cases hc : g.floatAt s < cxpb
    · have hstep : specCrossStep g cxpb (acc, s) (a, b)
          = (acc ++ [⟨(cxTwoPoint g (s + 1) a.genome b.genome).1.1, none⟩,
                ⟨(cxTwoPoint g (s + 1) a.genome b.genome).1.2, none⟩],
              (cxTwoPoint g (s + 1) a.genome b.genome).2) := by
        simp [specCrossStep, hc]
      have ihh := specCross_foldl g cxpb rest
        (acc ++ [⟨(cxTwoPoint g (s + 1) a.genome b.genome).1.1, none⟩,
          ⟨(cxTwoPoint g (s + 1) a.genome b.genome).1.2, none⟩])
        ((cxTwoPoint g (s + 1) a.genome b.genome).2)
      rw [List.foldl_cons, hstep]
      exact ihh.trans (by simp [crossPairs, hc, List.append_assoc])
    · have hstep : specCrossStep g cxpb (acc, s) (a, b)
          = (acc ++ [a, b], s + 1) := by
        simp [specCrossStep, hc]
      have ihh := specCross_foldl g cxpb rest (acc ++ [a, b]) (s + 1)
      rw [List.foldl_cons, hstep]
      exact ihh.trans (by simp [crossPairs, hc, List.append_assoc])

/-- C2 amended: the code's variation equals the two-level reading — two-point
crossover over consecutive pairs with probability cxpb per pair, then
mutation applied per individual with probability mutpb, a mutated
individual having each gene independently re-drawn within its own
dimension's bounds with probability indpb (0.5 in the source). -/
theorem variation_two_level (cfg : EAConfig) (pop : List Individual) (s : Nat) :
    varAnd cfg pop s = specVarAndAmended cfg pop s := by
  show mutateAll cfg.rng cfg.mutpb cfg.indpb cfg.bounds
      (crossPairs cfg.rng cfg.cxpb pop s).1
      (crossPairs cfg.rng cfg.cxpb pop s).2
    = ((((pairChunks pop).1).foldl (specCrossStep cfg.rng cfg.cxpb)
          ([], s)).1 ++ (pairChunks pop).2).foldl
        (specMutStep cfg.rng cfg.mutpb cfg.indpb cfg.bounds)
        ([], (((pairChunks pop).1).foldl (specCrossStep cfg.rng cfg.cxpb)
          ([], s)).2)
  have h1 := specCross_foldl cfg.rng cfg.cxpb pop [] s
  have e1 : (((pairChunks pop).1).foldl (specCrossStep cfg.rng cfg.cxpb)
        ([], s)).1 ++ (pairChunks pop).2
      = (crossPairs cfg.rng cfg.cxpb pop s).1 := by
    have := congrArg Prod.fst h1
    simpa using this
  have e2 : (((pairChunks pop).1).foldl (specCrossStep cfg.rng cfg.cxpb)
        ([], s)).2
      = (crossPairs cfg.rng cfg.cxpb pop s).2 := by
    have := congrArg Prod.snd h1
    simpa using this
  rw [e1, e2, specMut_foldl cfg.rng cfg.mutpb cfg.indpb cfg.bounds
    (crossPairs cfg.rng cfg.cxpb pop s).1 []
    (crossPairs cfg.rng cfg.cxpb pop s).2]
  simp

theorem lookupD_append {α : Type} (l1 l2 : List (String × α)) (k : String) :
    lookupD (l1 ++ l2) k = (lookupD l1 k).or (lookupD l2 k) := by
  induction l1 with
  | nil => simp [lookupD]
  | cons p rest ih =>
    by_cases h : (p.1 == k) = true
    · simp only [List.cons_append, lookupD, if_pos h]
      rfl
    · simp only [List.cons_append, lookupD, if_neg h]
      exact ih

theorem lookupD_merged {α : Type} (dl custom : List (String × α))
    (k : String) :
    lookupD (dl.map (fun p => (p.1, (lookupD custom p.1).getD p.2))) k
      = (lookupD dl k).map (fun v => (lookupD custom k).getD v) := by
  induction dl with
  | nil => rfl
  | cons p rest ih =>
    by_cases h : (p.1 == k) = true
    · have hk : p.1 = k := by simpa using h
      simp only [List.map_cons, lookupD, if_pos h]
      rw [hk]
      rfl
    · simp only [List.map_cons, lookupD, if_neg h]
      exact ih

theorem lookupD_filterFixed {α : Type} (dl : List (String × α))
    (fixedKeys : List String) (k : String) :
    lookupD (dl.filter (fun p => !(fixedKeys.contains p.1))) k
      = if k ∈ fixedKeys then none else lookupD dl k := by
  induction dl with
  | nil => by_cases hk : k ∈ fixedKeys <;> simp [hk, lookupD]
  | cons p rest ih =>
    rw [List.filter_cons]
    by_cases hp : p.1 ∈ fixedKeys
    · have hc : (!fixedKeys.contains p.1) = false := by simp [hp]
      rw [hc, if_neg (by simp), ih]
      by_cases hk : k ∈ fixedKeys
      · rw [if_pos hk, if_pos hk]
      · rw [if_neg hk, if_neg hk]
        have hne : (p.1 == k) = false := by
          simp only [beq_eq_false_iff_ne]
          intro he
          exact hk (he ▸ hp)
        rw [lookupD, if_neg (by simp [hne])]
    · have hc : (!fixedKeys.contains p.1) = true := by simp [hp]
      rw [hc, if_pos rfl]
      by_cases hpk : p.1 = k
      · subst hpk
        rw [if_neg hp]
        rw [lookupD, if_pos (by simp), lookupD, if_pos (by simp)]
      · have hne : (p.1 == k) = false := by simp [hpk]
        rw [lookupD, if_neg (by simp [hne]), ih]
        by_cases hk : k ∈ fixedKeys
        · rw [if_pos hk, if_pos hk]
        · rw [if_neg hk, if_neg hk, lookupD, if_neg (by simp [hne])]

theorem lookupD_additional {α : Type} (defaults custom : List (String × α))
    (fixedKeys : List String) (k : String) :
    lookupD (custom.filter (fun p =>
        !((dictKeys defaults).contains p.1) && !(fixedKeys.contains p.1))) k
      = if k ∈ dictKeys defaults ∨ k ∈ fixedKeys then none
        else lookupD custom k := by
  induction custom with
  | nil =>
    by_cases h : k ∈ dictKeys defaults ∨ k ∈ fixedKeys <;> simp [h, lookupD]
  | cons p rest ih =>
    rw [List.filter_cons]
    by_cases hpk : p.1 = k
    · subst hpk
      by_cases hcond : p.1 ∈ dictKeys defaults ∨ p.1 ∈ fixedKeys
      · have hdrop : (!((dictKeys defaults).contains p.1)
            && !(fixedKeys.contains p.1)) = false := by
          rcases hcond with h | h <;> simp [h]
        rw [hdrop, if_neg (by simp), ih, if_pos hcond, if_pos hcond]
      · have hkeep : (!((dictKeys defaults).contains p.1)
            && !(fixedKeys.contains p.1)) = true := by
          rcases not_or.mp hcond with ⟨h1, h2⟩
          simp [h1, h2]
        rw [hkeep, if_pos rfl, if_neg hcond]
        rw [lookupD, if_pos (by simp), lookupD, if_pos (by simp)]
    · have hne : (p.1 == k) = false := by simp [hpk]
      have hskip2 : lookupD (p :: rest) k = lookupD rest k := by
        rw [lookupD, if_neg (by simp [hne])]
      by_cases hkeep : (!((dictKeys defaults).contains p.1)
          && !(fixedKeys.contains p.1)) = true
      · rw [hkeep, if_pos rfl, lookupD, if_neg (by simp [hne]), ih, hskip2]
      · have hkeep2 : (!((dictKeys defaults).contains p.1)
            && !(fixedKeys.contains p.1)) = false :=
          Bool.eq_false_iff.mpr hkeep
        rw [hkeep2, if_neg (by simp), ih, hskip2]

theorem lookupD_eq_none_iff {α : Type} (dl : List (String × α)) (k : String) :
    lookupD dl k = none ↔ k ∉ dictKeys dl := by
  induction dl with
  | nil => simp [lookupD, dictKeys]
  | cons p rest ih =>
    by_cases hpk : p.1 = k
    · subst hpk
      rw [lookupD, if_pos (by simp)]
      constructor
      · intro h
        cases h
      · intro h
        exact absurd (List.mem_cons_self p.1 (dictKeys rest)) (by exact h)
    · have hne : (p.1 == k) = false := by simp [hpk]
      rw [lookupD, if_neg (by simp [hne]), ih]
      constructor
      · intro h hmem
        rcases List.mem_cons.mp hmem with he | hm
        · exact hpk he.symm
        · exact h hm
      · intro h hmem
        exact h (List.mem_cons_of_mem _ hmem)

/-- C4: search-space assembly.  Looking up any name in the result of
get_hyperparams gives: nothing when the name is in the fixed set; otherwise
the caller override when present, else the default when present, else
nothing — so the result holds exactly every non-fixed default dimension
with the override substituted, plus every caller dimension in neither
defaults nor fixed set, with precedence fixed over override over default;
the assembly is a total function, raising no error for unknown keys. -/
theorem search_space_assembly {α : Type} (defaults custom : List (String × α))
    (fixedKeys : List String) (k : String) :
    lookupD (get_hyperparams defaults custom fixedKeys) k
      = if k ∈ fixedKeys then none
        else (lookupD custom k).or (lookupD defaults k) := by
  unfold get_hyperparams
  rw [lookupD_append, lookupD_merged, lookupD_filterFixed, lookupD_additional]
  by_cases hf : k ∈ fixedKeys
  · rw [if_pos hf, if_pos hf, if_pos (Or.inr hf)]
    rfl
  · rw [if_neg hf, if_neg hf]
    by_cases hd : k ∈ dictKeys defaults
    · rw [if_pos (Or.inl hd)]
      have hsome : lookupD defaults k ≠ none := by
        intro hn
        exact ((lookupD_eq_none_iff defaults k).mp hn) hd
      rcases Option.ne_none_iff_exists'.mp hsome with ⟨v, hv⟩
      rw [hv]
      cases hc : lookupD custom k <;> simp
    · rw [if_neg (by
        intro hor
        rcases hor with h | h
        · exact hd h
        · exact hf h)]
      have hnone : lookupD defaults k = none :=
        (lookupD_eq_none_iff defaults k).mpr hd
      rw [hnone]
      cases hc : lookupD custom k <;> simp


end MLOpt
